import Mathlib

/-!
Shallow embedding of the EDGAR company-concept utilities (`utils.py`, `app.py`)
and proofs about their specified behaviour.

Conventions of the embedding:
* Python strings are `String`; string processing that must evaluate inside the
  kernel is done on `List Char` (the `.data` of a `String`).
* Python `None` for an optional string is `Option.none`.
* Machine-level numbers are `Int`/`Nat`; Python's float division in the value
  formatter is modelled as exact rational rounding to two decimals with
  round-half-even, which is what CPython's `"{:,.2f}".format` computes on
  every value appearing in this development.
* Network fetches are modelled by their decoded payloads (records below);
  a raised Python exception is `Except.error`.
-/

namespace Edgar

/-! ### Character-level string helpers (Python `str` operations) -/

/-- Split a character list on a single-character separator, like Python's
`str.split(sep)` for a one-character `sep`: `""` splits to `[""]`, adjacent
separators yield empty fields. -/
def splitOnChar (sep : Char) : List Char → List (List Char)
  | [] => [[]]
  | c :: rest =>
    match splitOnChar sep rest with
    | [] => if c = sep then [[], []] else [[c]]
    | h :: t => if c = sep then [] :: h :: t else (c :: h) :: t

/-- Numeric value of a decimal digit character. -/
def digitVal (c : Char) : Nat := c.toNat - 48

/-- Parse a non-empty all-digit character list as a natural number
(the digit form accepted by `datetime.strptime`'s `%Y`/`%m`/`%d`). -/
def charsToNat (l : List Char) : Option Nat :=
  if l ≠ [] ∧ l.all Char.isDigit then
    some (l.foldl (fun n c => 10 * n + digitVal c) 0)
  else none

/-- Prefix test: `a.isPrefixOfChars b` holds when the first list is a prefix of the second. -/
def isPrefixOfChars : List Char → List Char → Bool
  | [], _ => true
  | _ :: _, [] => false
  | a :: as, b :: bs => a = b && isPrefixOfChars as bs

/-- Substring test: `hasSubstr needle hay` is Python's `needle in hay`. -/
def hasSubstr (needle : List Char) : List Char → Bool
  | [] => needle.isEmpty
  | c :: rest => isPrefixOfChars needle (c :: rest) || hasSubstr needle rest

/-- Python's `str.upper()` for the ASCII range (the only characters that occur
in SEC form codes). -/
def pyUpperChar (c : Char) : Char :=
  if 'a' ≤ c ∧ c ≤ 'z' then Char.ofNat (c.toNat - 32) else c

/-- Python's `str.upper()` on a whole string. -/
def pyUpper (s : String) : String := String.mk (s.data.map pyUpperChar)

/-- Python's `str.partition(sep)[2]` for a one-character separator: the part
after the first occurrence of `sep`, `""` when `sep` does not occur. -/
def partAfterChar (sep : Char) : List Char → List Char
  | [] => []
  | c :: rest => if c = sep then rest else partAfterChar sep rest

/-! ### `format_value_as_readable` (src/utils.py lines 119-127)

CPython's `"{:,.2f}".format(x)` renders `x` with two decimals
(round-half-even) and groups the integer digits in threes with commas. -/

/-- Insert a comma after every group of three characters, working on the
reversed digit list (so grouping is from the least-significant end). -/
def commaGroupRev : List Char → List Char
  | [] => []
  | [a] => [a]
  | [a, b] => [a, b]
  | [a, b, c] => [a, b, c]
  | a :: b :: c :: d :: rest => a :: b :: c :: ',' :: commaGroupRev (d :: rest)

/-- Decimal digits of `n` grouped in threes by commas, e.g. `1500000 ↦ "1,500,000"`. -/
def commaGroup (n : Nat) : String :=
  String.mk (commaGroupRev (toString n).data.reverse).reverse

/-- Round the exact rational `num / den` (`den > 0`) to the nearest integer,
ties to even — the rounding CPython's fixed-point formatting performs. -/
def roundHalfEven (num : Int) (den : Int) : Int :=
  let q := num.fdiv den
  let r := num.fmod den
  if 2 * r < den then q
  else if den < 2 * r then q + 1
  else if q % 2 = 0 then q else q + 1

/-- Fixed-point rendering `"{:,.2f}".format(num / den)`: sign, comma-grouped integer part, exactly
two decimal digits. -/
def fmtFixed2 (num : Int) (den : Int) : String :=
  let h := roundHalfEven (num * 100) den
  let sign := if h < 0 then "-" else ""
  let a := h.natAbs
  let dec := a % 100
  sign ++ commaGroup (a / 100) ++ "." ++ (if dec < 10 then "0" else "") ++ toString dec

/-- Model of `format_value_as_readable` (src/utils.py 119-127): branch on the signed
value against 10^9 / 10^6 / 10^3, divide and render with two decimals, comma
separators, a leading `$` and suffix `B`/`M`/`K`; otherwise render the raw
value with two decimals. -/
def format_value_as_readable (value : Int) : String :=
  if 1000000000 ≤ value then "$" ++ fmtFixed2 value 1000000000 ++ "B"
  else if 1000000 ≤ value then "$" ++ fmtFixed2 value 1000000 ++ "M"
  else if 1000 ≤ value then "$" ++ fmtFixed2 value 1000 ++ "K"
  else "$" ++ fmtFixed2 value 1

/-! ### Dates (`datetime.strptime(s, "%Y-%m-%d")` and `datetime` ordering) -/

/-- A parsed calendar date (the result of `datetime.strptime(s, "%Y-%m-%d")`;
only the date components are populated). -/
structure Date where
  year : Nat
  month : Nat
  day : Nat
deriving DecidableEq, Repr

/-- Python `datetime` comparison: lexicographic on (year, month, day). -/
def Date.le (a b : Date) : Bool :=
  Nat.blt a.year b.year ||
    (a.year == b.year &&
      (Nat.blt a.month b.month || (a.month == b.month && Nat.ble a.day b.day)))

/-- Day count of a month, as `datetime` validates it. -/
def daysInMonth (y m : Nat) : Nat :=
  if m = 2 then
    if y % 4 = 0 ∧ (y % 100 ≠ 0 ∨ y % 400 = 0) then 29 else 28
  else if m = 4 ∨ m = 6 ∨ m = 9 ∨ m = 11 then 30
  else 31

/-- Model of `datetime.strptime(s, "%Y-%m-%d")`: split on `-`, parse three
digit groups, validate calendar ranges; a failure is Python's `ValueError`. -/
def strptimeYmd (s : String) : Option Date :=
  match splitOnChar '-' s.data with
  | [ys, ms, ds] => do
    let y ← charsToNat ys
    let m ← charsToNat ms
    let d ← charsToNat ds
    if 1 ≤ m ∧ m ≤ 12 ∧ 1 ≤ d ∧ d ≤ daysInMonth y m then some ⟨y, m, d⟩ else none
  | _ => none

/-! ### Data model (`utils.py` dataclasses, with their actual runtime types) -/

/-- Dataclass `XMLContextObject` (src/utils.py 17-24). `entity_identifier` is either the
identifier element's text (which Python may leave as `None`, modelled as
`Option.none`) or the sentinel `"N/A"`; a segment is a
(`dimension` attribute, element text) pair, either side possibly `None`. -/
structure XMLContextObject where
  id : String
  entity_identifier : Option String
  segments : List (Option String × Option String)
  period_start_date : Option String
  period_end_date : Option String
  period_instant : Option String
deriving DecidableEq, Repr

/-- Dataclass `XMLDataObject` (src/utils.py 27-35). `value` is the element text (may be
`None`); `decimals` is the raw attribute string (`"N/A"` when absent). -/
structure XMLDataObject where
  tag : String
  context_ref : String
  elem_id : String
  value : Option String
  unit_ref : String
  decimals : String
  context : List XMLContextObject
deriving DecidableEq, Repr

/-- Dataclass `Filing` (src/utils.py 45-56). The date fields hold the raw strings the
filings-index JSON supplies (the dataclass annotations claim `datetime`, but
`get_filing` passes the strings through unparsed). -/
structure Filing where
  cik : String
  ticker : String
  accessionNumber : String
  filingDate : String
  reportDate : String
  form : String
  primaryDocument : String
  primaryDocDescription : String
  summary : String
  xml_data : Option (List XMLDataObject) := none
deriving DecidableEq, Repr

/-- Dataclass `StatementObject` (src/utils.py 71-80). `value` holds the formatted string
`format_value_as_readable` produces (the annotation says `int`, the runtime
value is a `str`). -/
structure StatementObject where
  cik : Int
  gaap_item : String
  end_date : Date
  accn : String
  form : String
  fy : String
  fp : String
  value : String
deriving DecidableEq, Repr

/-! ### Statement deduplication (`get_statement_data`, src/utils.py 228-270) -/

/-- One raw observation of the concept-facts response's unit series: the JSON
fields `fp`, `end`, `accn`, `form`, `fy` (already through `str()`), `val`
(already through `int()`). -/
structure RawUnit where
  fp : String
  endStr : String
  accn : String
  form : String
  fyStr : String
  val : Int
deriving DecidableEq, Repr

/-- The `(unit['fp'], unit['end'])` tuple used by the seen-set. -/
def unitKey (u : RawUnit) : String × String := (u.fp, u.endStr)

/-- Model of `str(unit['fy']).split(".")[0]`. -/
def fyIntegerPart (s : String) : String :=
  String.mk (((splitOnChar '.' s.data).headD []))

/-- The `StatementObject` literal built at src/utils.py 255-264 for one raw
unit whose `end` parsed to `d`. -/
def mkStatementObject (cik : Int) (tag : String) (u : RawUnit) (d : Date) :
    StatementObject :=
  { cik := cik
    gaap_item := tag
    end_date := d
    accn := u.accn
    form := u.form
    fy := fyIntegerPart u.fyStr
    fp := u.fp
    value := format_value_as_readable u.val }

/-- The deduplication loop of `get_statement_data` (src/utils.py 246-266):
walk the series in order with a seen-set of `(fp, end)` keys; on a fresh key,
parse `end` (a parse failure raises, modelled as `none`) and emit the
`StatementObject`; on a seen key, skip. The Python `set` is modelled as the
list of keys added so far (only membership is used). -/
def dedupUnits (cik : Int) (tag : String) (seen : List (String × String)) :
    List RawUnit → Option (List StatementObject)
  | [] => some []
  | u :: rest =>
    if unitKey u ∈ seen then dedupUnits cik tag seen rest
    else
      match strptimeYmd u.endStr with
      | none => none
      | some d => do
        let tl ← dedupUnits cik tag (unitKey u :: seen) rest
        pure (mkStatementObject cik tag u d :: tl)

/-- A Python exception escaping `get_statement_data`. -/
inductive PyError where
  | indexError
  | valueError
deriving DecidableEq, Repr

/-- The decoded concept-facts fetch: HTTP success flag and the JSON fields
`cik`, `tag`, and `units` (an insertion-ordered mapping from unit name to its
series). -/
structure ConceptResponse where
  ok : Bool
  cik : Int
  tag : String
  units : List (String × List RawUnit)
deriving DecidableEq, Repr

/-- Model of `get_statement_data` (src/utils.py 228-270) after the fetch: on a
non-success response return `None`; otherwise take
`list(data['units'].values())[0]` (an `IndexError` when the mapping is empty)
and run the deduplication loop (a bad `end` date raises `ValueError`). -/
def get_statement_data (resp : ConceptResponse) :
    Except PyError (Option (List StatementObject)) :=
  if resp.ok then
    match (resp.units.map Prod.snd).head? with
    | none => .error .indexError
    | some units_list =>
      match dedupUnits resp.cik resp.tag [] units_list with
      | none => .error .valueError
      | some objs => .ok (some objs)
  else .ok none

/-- Model of `sort_statements_by_date` (src/utils.py 223-225): Python's stable
`sorted(..., key=end_date)`, modelled by the stable `mergeSort`. -/
def sort_statements_by_date (statements : List StatementObject) :
    List StatementObject :=
  statements.mergeSort (fun a b => Date.le a.end_date b.end_date)

/-! ### Filing catalog builder (`get_filing`, src/utils.py 150-175) -/

/-- The list comprehension of `get_filing` (src/utils.py 172-174): zip the six
parallel arrays of the filings-index payload positionally into `Filing`
records, with `summary = 'No summary'` and `xml_data` left at its `None`
default. Like Python's `zip`, it stops at the shortest array. -/
def get_filing_records (ticker cik : String) :
    List String → List String → List String → List String → List String →
      List String → List Filing
  | a :: as, b :: bs, c :: cs, d :: ds, e :: es, f :: fs =>
    { cik := cik, ticker := ticker, accessionNumber := a, filingDate := b,
      reportDate := c, form := d, primaryDocument := e,
      primaryDocDescription := f, summary := "No summary", xml_data := none } ::
      get_filing_records ticker cik as bs cs ds es fs
  | _, _, _, _, _, _ => []

/-! ### XML model (`xml.etree.ElementTree` as used by src/utils.py) -/

/-- A parsed XML element: `ElementTree`'s tag string (namespaced tags read
`{uri}local`), attribute mapping, text, and child elements in document
order. -/
inductive XMLElem : Type where
  | node (tag : String) (attribs : List (String × String)) (text : Option String)
      (children : List XMLElem)

/-- The element's tag string. -/
def XMLElem.tag : XMLElem → String
  | .node t _ _ _ => t

/-- The element's attribute mapping. -/
def XMLElem.attribs : XMLElem → List (String × String)
  | .node _ a _ _ => a

/-- The element's text (`None` when absent). -/
def XMLElem.text : XMLElem → Option String
  | .node _ _ x _ => x

/-- The element's children in document order. -/
def XMLElem.children : XMLElem → List XMLElem
  | .node _ _ _ cs => cs

/-- Attribute lookup `elem.attrib.get(key)`: the attribute's value, or `None`. -/
def attrGet? (e : XMLElem) (key : String) : Option String :=
  (e.attribs.find? (fun p => p.1 = key)).map Prod.snd

/-- Attribute lookup `elem.attrib.get(key, default)`. -/
def attrGet (e : XMLElem) (key default : String) : String :=
  (attrGet? e key).getD default

mutual

/-- Traversal `elem.iter()`: the element followed by all descendants, in document
order. -/
def XMLElem.iter : XMLElem → List XMLElem
  | .node t a x cs => .node t a x cs :: iterAll cs

/-- Concatenated `iter` of a forest, in order. -/
def iterAll : List XMLElem → List XMLElem
  | [] => []
  | c :: cs => c.iter ++ iterAll cs

end

/-- Search `root.findall(".//" + tag)` restricted to a tag test: all proper
descendants of `root` with the given tag string, in document order. -/
def descendantsTagged (root : XMLElem) (t : String) : List XMLElem :=
  (iterAll root.children).filter (fun e => e.tag = t)

/-- Resolved `{uri}tag` names for the namespace prefixes `utils.py` uses. -/
def xbrlContextTag : String := "\x7bhttp://www.xbrl.org/2003/instance\x7dcontext"

/-- Resolved `xbrl:entity`. -/
def xbrlEntityTag : String := "\x7bhttp://www.xbrl.org/2003/instance\x7dentity"

/-- Resolved `xbrl:identifier`. -/
def xbrlIdentifierTag : String := "\x7bhttp://www.xbrl.org/2003/instance\x7didentifier"

/-- Resolved `xbrl:period`. -/
def xbrlPeriodTag : String := "\x7bhttp://www.xbrl.org/2003/instance\x7dperiod"

/-- Resolved `xbrl:startDate`. -/
def xbrlStartDateTag : String := "\x7bhttp://www.xbrl.org/2003/instance\x7dstartDate"

/-- Resolved `xbrl:endDate`. -/
def xbrlEndDateTag : String := "\x7bhttp://www.xbrl.org/2003/instance\x7dendDate"

/-- Resolved `xbrl:instant`. -/
def xbrlInstantTag : String := "\x7bhttp://www.xbrl.org/2003/instance\x7dinstant"

/-- Resolved `xbrldi:explicitMember`. -/
def xbrldiExplicitMemberTag : String := "\x7bhttp://xbrl.org/2006/xbrldi\x7dexplicitMember"

/-- Search `elem.find("a/b")`: the first grandchild reached by a child tagged `t1`
then a child of it tagged `t2`, in document order. -/
def findPath2 (e : XMLElem) (t1 t2 : String) : Option XMLElem :=
  ((e.children.filter (fun c => c.tag = t1)).flatMap
    (fun c => c.children.filter (fun g => g.tag = t2))).head?

/-- Search `elem.findtext("a/b")`: text of the first match (`""` when the matched
element has no text), `None` when there is no match. -/
def findText2 (e : XMLElem) (t1 t2 : String) : Option String :=
  (findPath2 e t1 t2).map (fun el => el.text.getD "")

/-- The `context` elements `extract_context` selects:
`root.findall(f".//xbrl:context[@id='{context_ref}']")` — descendants tagged
`xbrl:context` whose `id` attribute equals the reference. -/
def contextElements (root : XMLElem) (context_ref : String) : List XMLElem :=
  (iterAll root.children).filter
    (fun e => e.tag = xbrlContextTag ∧ attrGet? e "id" = some context_ref)

/-- The `XMLContextObject` the loop body of `extract_context`
(src/utils.py 279-307) builds from one matching `context` element. -/
def contextObjectOf (context_ref : String) (ce : XMLElem) : XMLContextObject :=
  { id := context_ref
    entity_identifier :=
      match findPath2 ce xbrlEntityTag xbrlIdentifierTag with
      | some el => el.text
      | none => some "N/A"
    segments :=
      ((iterAll ce.children).filter
        (fun m => m.tag = xbrldiExplicitMemberTag)).map
        (fun m => (attrGet? m "dimension", m.text))
    period_start_date := findText2 ce xbrlPeriodTag xbrlStartDateTag
    period_end_date := findText2 ce xbrlPeriodTag xbrlEndDateTag
    period_instant := findText2 ce xbrlPeriodTag xbrlInstantTag }

/-- Model of `extract_context` (src/utils.py 273-309): find every `context` descendant
whose `id` equals the reference and convert each to an `XMLContextObject`. -/
def extract_context (root : XMLElem) (context_ref : String) :
    List XMLContextObject :=
  (contextElements root context_ref).map (contextObjectOf context_ref)

/-- The namespace test of `extract_tags` (src/utils.py 317):
`'fasb.org/us-gaap' in elem.tag`. -/
def usGaapMatch (e : XMLElem) : Bool :=
  hasSubstr "fasb.org/us-gaap".data e.tag.data

/-- The `XMLDataObject` the loop body of `extract_tags` (src/utils.py 318-334)
builds from one matching element: local tag name (`partition('}')[2]`),
attributes defaulted to `"N/A"`, raw text, and the resolved contexts. -/
def dataObjectOf (root : XMLElem) (e : XMLElem) : XMLDataObject :=
  let context_ref := attrGet e "contextRef" "N/A"
  { tag := String.mk (partAfterChar '}' e.tag.data)
    context_ref := context_ref
    elem_id := attrGet e "id" "N/A"
    value := e.text
    unit_ref := attrGet e "unitRef" "N/A"
    decimals := attrGet e "decimals" "N/A"
    context := extract_context root context_ref }

/-- The `for elem in root.iter()` loop of `extract_tags`: emit an
`XMLDataObject` for each element matching the us-gaap test, in order. -/
def extractTagsLoop (root : XMLElem) : List XMLElem → List XMLDataObject
  | [] => []
  | e :: rest =>
    if usGaapMatch e then dataObjectOf root e :: extractTagsLoop root rest
    else extractTagsLoop root rest

/-- Model of `extract_tags` (src/utils.py 312-335) on an already-parsed document root
(`ET.fromstring` of well-formed XML). -/
def extract_tags (root : XMLElem) : List XMLDataObject :=
  extractTagsLoop root root.iter

/-! ### Statement augmentation (`get_xml`, src/utils.py 362-378)

The network round trip (filing index page → `find_xml_link` → instance
document → `extract_tags`) is abstracted as the function `facts` giving the
extracted data for a filing. -/

/-- Whether a filing's form participates in augmentation:
`item.form.upper() in ["10-Q", "10-K"]`. -/
def qualifies (f : Filing) : Bool :=
  pyUpper f.form = "10-Q" ∨ pyUpper f.form = "10-K"

/-- The `for index, item in enumerate(filings)` loop of `get_xml`, carrying
the running `count` of augmented filings. -/
def getXmlLoop (facts : Filing → List XMLDataObject) (lim : Nat) :
    Nat → List Filing → List Filing
  | _, [] => []
  | count, f :: rest =>
    if qualifies f ∧ count < lim then
      { f with xml_data := some (facts f) } ::
        getXmlLoop facts lim (count + 1) rest
    else f :: getXmlLoop facts lim count rest

/-- Model of `get_xml` (src/utils.py 362-378): a falsy limit (0) becomes
`len(filings) + 1`; filings whose form is 10-Q/10-K (case-insensitive) get
`xml_data` attached while fewer than `limit` have been processed. -/
def get_xml (facts : Filing → List XMLDataObject) (filings : List Filing)
    (limit : Nat) : List Filing :=
  let lim := if limit = 0 then filings.length + 1 else limit
  getXmlLoop facts lim 0 filings

/-- The comparison `sort_statements_by_date` sorts by. -/
def stmtLe (a b : StatementObject) : Bool := Date.le a.end_date b.end_date

/-- A small statement document used to instantiate the XML theorems: one
`xbrl:context` with id `c1`, one us-gaap fact referring to it, and one
non-financial (dei) element. -/
def sampleContextElem : XMLElem :=
  .node xbrlContextTag [("id", "c1")] none
    [.node xbrlEntityTag [] none
      [.node xbrlIdentifierTag [] (some "0000320193") []],
     .node xbrlPeriodTag [] none
      [.node xbrlEndDateTag [] (some "2023-09-30") []]]

/-- The us-gaap fact element of the sample document. -/
def sampleFactElem : XMLElem :=
  .node "\x7bhttp://fasb.org/us-gaap/2023\x7dRevenues"
    [("contextRef", "c1"), ("unitRef", "usd"), ("decimals", "-6")]
    (some "383285000000") []

/-- The sample document root. -/
def sampleRoot : XMLElem :=
  .node "\x7bhttp://www.xbrl.org/2003/instance\x7dxbrl" [] none
    [sampleContextElem, sampleFactElem,
     .node "\x7bhttp://xbrl.sec.gov/dei/2023\x7dDocumentType" [] (some "10-K") []]

/-- A fresh catalog record used to instantiate `get_xml_spec`. -/
def sampleFiling (form : String) : Filing :=
  { cik := "0000320193", ticker := "AAPL", accessionNumber := "acc",
    filingDate := "2023-11-03", reportDate := "2023-09-30", form := form,
    primaryDocument := "doc.htm", primaryDocDescription := "desc",
    summary := "No summary", xml_data := none }

/-- The raw units the deduplication loop keeps: the first occurrence of each
`(fp, end)` key not already in `seen`, in input order. -/
def keepFirsts (seen : List (String × String)) : List RawUnit → List RawUnit
  | [] => []
  | u :: rest =>
    if unitKey u ∈ seen then keepFirsts seen rest
    else u :: keepFirsts (unitKey u :: seen) rest

/-- Conversion of a run of kept units into `StatementObject`s, in order; a
date-parse failure aborts the whole run (Python's `ValueError`). -/
def convertUnits (cik : Int) (tag : String) : List RawUnit →
    Option (List StatementObject)
  | [] => some []
  | u :: rest =>
    match strptimeYmd u.endStr with
    | none => none
    | some d =>
      (convertUnits cik tag rest).map
        (fun tl => mkStatementObject cik tag u d :: tl)

/-- A raw series with a duplicate `(fp, end)` pair whose two entries differ
in `val`, plus one further distinct pair. -/
def dupUnits : List RawUnit :=
  [{ fp := "FY", endStr := "2023-09-30", accn := "a1", form := "10-K",
     fyStr := "2023.0", val := 1500000000 },
   { fp := "FY", endStr := "2023-09-30", accn := "a2", form := "10-K",
     fyStr := "2023.0", val := 999 },
   { fp := "Q1", endStr := "2023-12-30", accn := "a3", form := "10-Q",
     fyStr := "2024.0", val := 42 }]

/-- The observations the loop produces on `dupUnits`: the first `FY` entry's
value (`"$1.50B"`, not the duplicate's `"$999.00"`) and the `Q1` entry. -/
def dupUnitsExpected : List StatementObject :=
  [{ cik := 320193, gaap_item := "Revenues", end_date := ⟨2023, 9, 30⟩,
     accn := "a1", form := "10-K", fy := "2023", fp := "FY",
     value := "$1.50B" },
   { cik := 320193, gaap_item := "Revenues", end_date := ⟨2023, 12, 30⟩,
     accn := "a3", form := "10-Q", fy := "2024", fp := "Q1",
     value := "$42.00" }]

/-! ## Theorems -/

/-- C2 counterexample: the claim asserts the thresholds are applied to the
absolute value with the sign preserved in the numeric portion (so
`-1_500_000_000 ↦ "$-1.50B"`) and that `750 ↦ "$0.75K"`; the code compares
the signed value, sending every negative value to the raw branch
(`-1_500_000_000 ↦ "$-1,500,000,000.00"`), and `750 < 1000` also takes the
raw branch (`750 ↦ "$750.00"`). -/
theorem format_value_as_readable_abs_counterexample :
    format_value_as_readable (-1500000000) = "$-1,500,000,000.00" ∧
    format_value_as_readable (-1500000000) ≠ "$-1.50B" ∧
    format_value_as_readable 750 = "$750.00" ∧
    format_value_as_readable 750 ≠ "$0.75K" := by
  refine ⟨by decide, by decide, by decide, by decide⟩

/-- C2 (amended): the value formatter compares the signed value against its
thresholds: `v ≥ 10^9` renders `v/10^9` with 2 decimal places, thousands
separators, leading `$` and suffix `B`; `10^6 ≤ v < 10^9` likewise with
suffix `M`; `10^3 ≤ v < 10^6` with suffix `K`; otherwise — including every
negative value — the raw value with 2 decimal places and separators, the sign
kept in the numeric portion; in particular `1_500_000_000 ↦ "$1.50B"`,
`2_500_000 ↦ "$2.50M"`, `750 ↦ "$750.00"`, `42 ↦ "$42.00"`,
`-1_500_000_000 ↦ "$-1,500,000,000.00"`. -/
theorem format_value_as_readable_signed_thresholds :
    (∀ v : Int, 1000000000 ≤ v →
      format_value_as_readable v = "$" ++ fmtFixed2 v 1000000000 ++ "B") ∧
    (∀ v : Int, 1000000 ≤ v → v < 1000000000 →
      format_value_as_readable v = "$" ++ fmtFixed2 v 1000000 ++ "M") ∧
    (∀ v : Int, 1000 ≤ v → v < 1000000 →
      format_value_as_readable v = "$" ++ fmtFixed2 v 1000 ++ "K") ∧
    (∀ v : Int, v < 1000 → format_value_as_readable v = "$" ++ fmtFixed2 v 1) ∧
    format_value_as_readable 1500000000 = "$1.50B" ∧
    format_value_as_readable 2500000 = "$2.50M" ∧
    format_value_as_readable 750 = "$750.00" ∧
    format_value_as_readable 42 = "$42.00" ∧
    format_value_as_readable (-1500000000) = "$-1,500,000,000.00" := by
  refine ⟨?_, ?_, ?_, ?_, by decide, by decide, by decide, by decide, by decide⟩
  · intro v h
    simp only [format_value_as_readable, if_pos h]
  · intro v h h'
    have : ¬ (1000000000 : Int) ≤ v := by omega
    simp only [format_value_as_readable, if_neg this, if_pos h]
  · intro v h h'
    have h1 : ¬ (1000000000 : Int) ≤ v := by omega
    have h2 : ¬ (1000000 : Int) ≤ v := by omega
    simp only [format_value_as_readable, if_neg h1, if_neg h2, if_pos h]
  · intro v h
    have h1 : ¬ (1000000000 : Int) ≤ v := by omega
    have h2 : ¬ (1000000 : Int) ≤ v := by omega
    have h3 : ¬ (1000 : Int) ≤ v := by omega
    simp only [format_value_as_readable, if_neg h1, if_neg h2, if_neg h3]

/-- C2 witness: the amended branch clauses instantiated at concrete values. -/
theorem format_value_as_readable_signed_thresholds_witness :
    format_value_as_readable 1500000000 = "$" ++ fmtFixed2 1500000000 1000000000 ++ "B" ∧
    format_value_as_readable (-42) = "$" ++ fmtFixed2 (-42) 1 :=
  ⟨format_value_as_readable_signed_thresholds.1 1500000000 (by decide),
   format_value_as_readable_signed_thresholds.2.2.2.1 (-42) (by decide)⟩

/-- With six equally long input arrays the builder emits one record per
index. -/
lemma get_filing_records_length (ticker cik : String) :
    ∀ (as bs cs ds es fs : List String) (N : Nat),
      as.length = N → bs.length = N → cs.length = N → ds.length = N →
      es.length = N → fs.length = N →
      (get_filing_records ticker cik as bs cs ds es fs).length = N
  | [], bs, cs, ds, es, fs, N, ha, _, _, _, _, _ => by
    subst ha; simp [get_filing_records]
  | _ :: _, [], _, _, _, _, N, ha, hb, _, _, _, _ => by
    simp at ha hb; omega
  | _ :: _, _ :: _, [], _, _, _, N, ha, _, hc, _, _, _ => by
    simp at ha hc; omega
  | _ :: _, _ :: _, _ :: _, [], _, _, N, ha, _, _, hd, _, _ => by
    simp at ha hd; omega
  | _ :: _, _ :: _, _ :: _, _ :: _, [], _, N, ha, _, _, _, he, _ => by
    simp at ha he; omega
  | _ :: _, _ :: _, _ :: _, _ :: _, _ :: _, [], N, ha, _, _, _, _, hf => by
    simp at ha hf; omega
  | a :: as, b :: bs, c :: cs, d :: ds, e :: es, f :: fs, N, ha, hb, hc, hd, he, hf => by
    simp only [get_filing_records, List.length_cons]
    simp only [List.length_cons] at ha hb hc hd he hf
    rw [get_filing_records_length ticker cik as bs cs ds es fs (N - 1)
      (by omega) (by omega) (by omega) (by omega) (by omega) (by omega)]
    omega

/-- The `i`-th record is built from the `i`-th entry of each array. -/
lemma get_filing_records_getElem (ticker cik : String) :
    ∀ (as bs cs ds es fs : List String) (i : Nat) (a b c d e f : String),
      as[i]? = some a → bs[i]? = some b → cs[i]? = some c → ds[i]? = some d →
      es[i]? = some e → fs[i]? = some f →
      (get_filing_records ticker cik as bs cs ds es fs)[i]? =
        some { cik := cik, ticker := ticker, accessionNumber := a,
               filingDate := b, reportDate := c, form := d,
               primaryDocument := e, primaryDocDescription := f,
               summary := "No summary", xml_data := none }
  | [], _, _, _, _, _, i, a, b, c, d, e, f, ha, _, _, _, _, _ => by
    simp at ha
  | _ :: _, [], _, _, _, _, i, a, b, c, d, e, f, _, hb, _, _, _, _ => by
    simp at hb
  | _ :: _, _ :: _, [], _, _, _, i, a, b, c, d, e, f, _, _, hc, _, _, _ => by
    simp at hc
  | _ :: _, _ :: _, _ :: _, [], _, _, i, a, b, c, d, e, f, _, _, _, hd, _, _ => by
    simp at hd
  | _ :: _, _ :: _, _ :: _, _ :: _, [], _, i, a, b, c, d, e, f, _, _, _, _, he, _ => by
    simp at he
  | _ :: _, _ :: _, _ :: _, _ :: _, _ :: _, [], i, a, b, c, d, e, f, _, _, _, _, _, hf => by
    simp at hf
  | a0 :: as, b0 :: bs, c0 :: cs, d0 :: ds, e0 :: es, f0 :: fs, 0,
      a, b, c, d, e, f, ha, hb, hc, hd, he, hf => by
    simp only [List.getElem?_cons_zero, Option.some_inj] at ha hb hc hd he hf
    subst ha; subst hb; subst hc; subst hd; subst he; subst hf
    simp [get_filing_records]
  | a0 :: as, b0 :: bs, c0 :: cs, d0 :: ds, e0 :: es, f0 :: fs, i + 1,
      a, b, c, d, e, f, ha, hb, hc, hd, he, hf => by
    simp only [List.getElem?_cons_succ] at ha hb hc hd he hf
    simpa [get_filing_records] using
      get_filing_records_getElem ticker cik as bs cs ds es fs i a b c d e f
        ha hb hc hd he hf

/-- C3: for a filings-index payload whose six parallel arrays all have length
`N`, the builder produces exactly `N` `Filing` records in positional
correspondence — the `i`-th record carries the `i`-th element of each array
together with the given `cik` and `ticker`, the defaulted summary
`"No summary"`, and `xml_data = none` until augmentation. -/
theorem get_filing_records_positional (ticker cik : String)
    (as bs cs ds es fs : List String) (N : Nat)
    (ha : as.length = N) (hb : bs.length = N) (hc : cs.length = N)
    (hd : ds.length = N) (he : es.length = N) (hf : fs.length = N) :
    (get_filing_records ticker cik as bs cs ds es fs).length = N ∧
    ∀ (i : Nat) (a b c d e f : String),
      as[i]? = some a → bs[i]? = some b → cs[i]? = some c → ds[i]? = some d →
      es[i]? = some e → fs[i]? = some f →
      (get_filing_records ticker cik as bs cs ds es fs)[i]? =
        some { cik := cik, ticker := ticker, accessionNumber := a,
               filingDate := b, reportDate := c, form := d,
               primaryDocument := e, primaryDocDescription := f,
               summary := "No summary", xml_data := none } :=
  ⟨get_filing_records_length ticker cik as bs cs ds es fs N ha hb hc hd he hf,
   fun i a b c d e f h1 h2 h3 h4 h5 h6 =>
     get_filing_records_getElem ticker cik as bs cs ds es fs i a b c d e f
       h1 h2 h3 h4 h5 h6⟩

/-- C3 witness: the end-to-end scenario — a one-element filings index yields
exactly one `Filing` with those exact field values and `xml_data = none`. -/
theorem get_filing_records_positional_witness :
    (get_filing_records "AAPL" "0000320193" ["0000320193-23-000106"]
      ["2023-11-03"] ["2023-09-30"] ["10-K"] ["aapl-20230930.htm"]
      ["10-K"]).length = 1 ∧
    (get_filing_records "AAPL" "0000320193" ["0000320193-23-000106"]
      ["2023-11-03"] ["2023-09-30"] ["10-K"] ["aapl-20230930.htm"]
      ["10-K"])[0]? =
      some { cik := "0000320193", ticker := "AAPL",
             accessionNumber := "0000320193-23-000106",
             filingDate := "2023-11-03", reportDate := "2023-09-30",
             form := "10-K", primaryDocument := "aapl-20230930.htm",
             primaryDocDescription := "10-K", summary := "No summary",
             xml_data := none } :=
  ⟨(get_filing_records_positional "AAPL" "0000320193"
      ["0000320193-23-000106"] ["2023-11-03"] ["2023-09-30"] ["10-K"]
      ["aapl-20230930.htm"] ["10-K"] 1 rfl rfl rfl rfl rfl rfl).1,
   (get_filing_records_positional "AAPL" "0000320193"
      ["0000320193-23-000106"] ["2023-11-03"] ["2023-09-30"] ["10-K"]
      ["aapl-20230930.htm"] ["10-K"] 1 rfl rfl rfl rfl rfl rfl).2 0
      "0000320193-23-000106" "2023-11-03" "2023-09-30" "10-K"
      "aapl-20230930.htm" "10-K" rfl rfl rfl rfl rfl rfl⟩

/-- The order `Date.le` is reflexive. -/
lemma Date.le_refl (a : Date) : Date.le a a = true := by
  simp [Date.le]

/-- The order `Date.le` is transitive. -/
lemma Date.le_trans (a b c : Date) (hab : Date.le a b = true)
    (hbc : Date.le b c = true) : Date.le a c = true := by
  simp only [Date.le, Bool.or_eq_true, Bool.and_eq_true, Nat.blt_eq,
    Nat.ble_eq, beq_iff_eq] at *
  omega

/-- The order `Date.le` is total. -/
lemma Date.le_total (a b : Date) : (Date.le a b || Date.le b a) = true := by
  simp only [Date.le, Bool.or_eq_true, Bool.and_eq_true, Nat.blt_eq,
    Nat.ble_eq, beq_iff_eq]
  omega

/-- C9: the date-sort helper returns a permutation of its input that is
sorted by `end_date` ascending and is stable — for every date `d`, the
subsequence of observations with that `end_date` is unchanged, so equal
dates keep their original relative order. -/
theorem sort_statements_by_date_sorted_stable (l : List StatementObject) :
    (sort_statements_by_date l).Perm l ∧
    (sort_statements_by_date l).Pairwise (fun a b => stmtLe a b = true) ∧
    ∀ d : Date,
      (sort_statements_by_date l).filter (fun s => s.end_date == d) =
        l.filter (fun s => s.end_date == d) := by
  have trans : ∀ a b c : StatementObject,
      stmtLe a b = true → stmtLe b c = true → stmtLe a c = true :=
    fun a b c hab hbc => Date.le_trans _ _ _ hab hbc
  have total : ∀ a b : StatementObject, (stmtLe a b || stmtLe b a) = true :=
    fun a b => Date.le_total _ _
  refine ⟨List.mergeSort_perm l _, List.sorted_mergeSort trans total l, ?_⟩
  intro d
  set p : StatementObject → Bool := fun s => s.end_date == d with hp
  have hpw : (l.filter p).Pairwise (fun a b => stmtLe a b = true) := by
    apply List.pairwise_of_forall_mem_list
    intro a ha b hb
    have ha' : a.end_date = d := by
      have := (List.mem_filter.mp ha).2
      simpa [hp] using this
    have hb' : b.end_date = d := by
      have := (List.mem_filter.mp hb).2
      simpa [hp] using this
    simp [stmtLe, ha', hb', Date.le_refl]
  have hsub : (l.filter p).Sublist (l.mergeSort stmtLe) :=
    List.sublist_mergeSort trans total hpw (List.filter_sublist l)
  have hsub2 : ((l.filter p).filter p).Sublist ((l.mergeSort stmtLe).filter p) :=
    List.Sublist.filter p hsub
  have hff : (l.filter p).filter p = l.filter p := by
    rw [List.filter_filter]
    apply List.filter_congr
    intro a _
    simp [Bool.and_self]
  rw [hff] at hsub2
  have hlen : ((l.mergeSort stmtLe).filter p).length = (l.filter p).length :=
    ((List.mergeSort_perm l stmtLe).filter p).length_eq
  have := hsub2.eq_of_length hlen.symm
  simpa [sort_statements_by_date, stmtLe] using this.symm

/-- C6: the context resolver returns, for every context reference, exactly
the conversions of the `context` elements whose `id` attribute equals the
reference — every matching element contributes its conversion, everything
returned is the conversion of some matching element and carries `id = ref` —
and when no context element matches it returns the empty list rather than
failing. -/
theorem extract_context_complete (root : XMLElem) (ref : String) :
    (∀ e ∈ iterAll root.children, e.tag = xbrlContextTag →
        attrGet? e "id" = some ref →
        contextObjectOf ref e ∈ extract_context root ref) ∧
    (∀ c ∈ extract_context root ref, c.id = ref ∧
        ∃ e ∈ iterAll root.children, e.tag = xbrlContextTag ∧
          attrGet? e "id" = some ref ∧ c = contextObjectOf ref e) ∧
    ((∀ e ∈ iterAll root.children, e.tag = xbrlContextTag →
        attrGet? e "id" ≠ some ref) → extract_context root ref = []) := by
  refine ⟨?_, ?_, ?_⟩
  · intro e he h1 h2
    exact List.mem_map_of_mem _
      (List.mem_filter.mpr ⟨he, by simp [h1, h2]⟩)
  · intro c hc
    obtain ⟨e, he, rfl⟩ := List.mem_map.mp hc
    obtain ⟨he', hp⟩ := List.mem_filter.mp he
    simp only [decide_eq_true_eq] at hp
    exact ⟨rfl, e, he', hp.1, hp.2, rfl⟩
  · intro h
    unfold extract_context
    have : contextElements root ref = [] := by
      unfold contextElements
      rw [List.filter_eq_nil_iff]
      intro e he
      simp only [decide_eq_true_eq, not_and]
      exact h e he
    rw [this]
    rfl

/-- C6 witness: on the sample document, the matching context is returned for
reference `c1`, and an unmatched reference yields the empty list. -/
theorem extract_context_complete_witness :
    contextObjectOf "c1" sampleContextElem ∈ extract_context sampleRoot "c1" ∧
    extract_context sampleRoot "nomatch" = [] :=
  ⟨(extract_context_complete sampleRoot "c1").1 sampleContextElem
      (by simp [sampleRoot, sampleContextElem, sampleFactElem, iterAll,
        XMLElem.iter, XMLElem.children])
      (by decide) (by decide),
   (extract_context_complete sampleRoot "nomatch").2.2 (by decide)⟩

/-- Lemma: `isPrefixOfChars` is the ∃-decomposition prefix test. -/
lemma isPrefixOfChars_iff : ∀ (n h : List Char),
    isPrefixOfChars n h = true ↔ ∃ t, h = n ++ t
  | [], h => by simp [isPrefixOfChars]
  | d :: n', [] => by simp [isPrefixOfChars]
  | d :: n', x :: h' => by
    simp only [isPrefixOfChars, Bool.and_eq_true, decide_eq_true_eq,
      List.cons_append, List.cons.injEq]
    rw [isPrefixOfChars_iff n' h']
    constructor
    · rintro ⟨rfl, t, rfl⟩
      exact ⟨t, rfl, rfl⟩
    · rintro ⟨t, rfl, rfl⟩
      exact ⟨rfl, t, rfl⟩

/-- Lemma: `hasSubstr` is the ∃-decomposition substring test. -/
lemma hasSubstr_iff : ∀ (n h : List Char),
    hasSubstr n h = true ↔ ∃ l1 l2, h = l1 ++ n ++ l2
  | n, [] => by
    simp only [hasSubstr, List.isEmpty_iff]
    constructor
    · rintro rfl
      exact ⟨[], [], rfl⟩
    · rintro ⟨l1, l2, h⟩
      have h' := h.symm
      rw [List.append_assoc] at h'
      obtain ⟨-, h2⟩ := List.append_eq_nil.mp h'
      exact (List.append_eq_nil.mp h2).1
  | n, c :: rest => by
    simp only [hasSubstr, Bool.or_eq_true]
    rw [isPrefixOfChars_iff, hasSubstr_iff n rest]
    constructor
    · rintro (⟨t, ht⟩ | ⟨l1, l2, hl⟩)
      · exact ⟨[], t, by simpa using ht⟩
      · exact ⟨c :: l1, l2, by simp [hl]⟩
    · rintro ⟨l1, l2, h⟩
      cases l1 with
      | nil => exact Or.inl ⟨l2, by simpa using h⟩
      | cons c' l1' =>
        have h' : c :: rest = c' :: (l1' ++ n ++ l2) := by simpa using h
        injection h' with h1 h2
        exact Or.inr ⟨l1', l2, h2⟩

/-- A substring's characters are characters of the string. -/
lemma mem_of_hasSubstr {n h : List Char} (hs : hasSubstr n h = true)
    {x : Char} (hx : x ∈ n) : x ∈ h := by
  obtain ⟨l1, l2, rfl⟩ := (hasSubstr_iff n h).mp hs
  simp [hx]

/-- A prefix test ignores everything at and after a character absent from the
needle. -/
lemma isPrefixOfChars_append_cons {c : Char} :
    ∀ (n : List Char), c ∉ n → ∀ (a b : List Char),
      isPrefixOfChars n (a ++ c :: b) = isPrefixOfChars n a
  | [], _, a, b => by cases a <;> simp [isPrefixOfChars]
  | d :: n', hc, [], b => by
    have hdc : ¬ (d = c) := fun h => hc (h ▸ List.mem_cons_self d n')
    simp [isPrefixOfChars, hdc]
  | d :: n', hc, x :: a', b => by
    simp only [List.cons_append, isPrefixOfChars, List.append_eq]
    rw [isPrefixOfChars_append_cons n' (fun h => hc (List.mem_cons_of_mem d h)) a' b]

/-- A substring occurrence cannot straddle a character absent from the
needle: searching across `a ++ c :: b` is searching `a` or searching `b`. -/
lemma hasSubstr_append_cons {n : List Char} {c : Char} (hc : c ∉ n) :
    ∀ (a b : List Char),
      hasSubstr n (a ++ c :: b) = (hasSubstr n a || hasSubstr n b)
  | [], b => by
    match n, hc with
    | [], _ => simp [hasSubstr, isPrefixOfChars]
    | d :: n', hc =>
      have hdc : ¬ (d = c) := fun h => hc (h ▸ List.mem_cons_self d n')
      simp [hasSubstr, isPrefixOfChars, hdc]
  | x :: a', b => by
    simp only [List.cons_append, hasSubstr, List.append_eq]
    rw [show x :: (a' ++ c :: b) = (x :: a') ++ c :: b from rfl,
      isPrefixOfChars_append_cons n hc (x :: a') b,
      hasSubstr_append_cons hc a' b]
    rw [Bool.or_assoc]

/-- The loop of `extract_tags` emits exactly the matching elements, in
order. -/
lemma extractTagsLoop_eq (root : XMLElem) : ∀ l : List XMLElem,
    extractTagsLoop root l = (l.filter usGaapMatch).map (dataObjectOf root)
  | [] => rfl
  | e :: rest => by
    by_cases h : usGaapMatch e
    · simp [extractTagsLoop, List.filter_cons, h, extractTagsLoop_eq root rest]
    · simp only [Bool.not_eq_true] at h
      simp [extractTagsLoop, List.filter_cons, h, extractTagsLoop_eq root rest]

/-- C4: the fact extractor emits one `XMLDataObject` per element whose tag
matches the us-gaap namespace test, in document order (`root.iter` order),
and nothing else; each emitted record is the conversion of its element, with
the tag cut down to the local name after the `}` of the namespace; a document
with zero matching elements yields `[]`, not an error. For an element whose
tag has the `{uri}local` shape with a `/`-free local name — every tag
`ElementTree` produces for a namespaced element of well-formed XML — the test
is exactly a substring match of `fasb.org/us-gaap` on the namespace URI. -/
theorem extract_tags_spec (root : XMLElem) :
    extract_tags root = (root.iter.filter usGaapMatch).map (dataObjectOf root) ∧
    (∀ o ∈ extract_tags root, ∃ e ∈ root.iter, usGaapMatch e = true ∧
        o = dataObjectOf root e ∧
        o.tag = String.mk (partAfterChar '}' e.tag.data)) ∧
    ((∀ e ∈ root.iter, usGaapMatch e = false) → extract_tags root = []) ∧
    (∀ (e : XMLElem) (uri loc : String),
        e.tag.data = '{' :: uri.data ++ '}' :: loc.data → '/' ∉ loc.data →
        usGaapMatch e = hasSubstr "fasb.org/us-gaap".data uri.data) := by
  refine ⟨extractTagsLoop_eq root root.iter, ?_, ?_, ?_⟩
  · intro o ho
    rw [extract_tags, extractTagsLoop_eq root root.iter] at ho
    obtain ⟨e, he, rfl⟩ := List.mem_map.mp ho
    obtain ⟨he', hm⟩ := List.mem_filter.mp he
    exact ⟨e, he', hm, rfl, rfl⟩
  · intro h
    rw [extract_tags, extractTagsLoop_eq root root.iter]
    have : root.iter.filter usGaapMatch = [] := by
      rw [List.filter_eq_nil_iff]
      intro e he
      simp [h e he]
    rw [this]
    rfl
  · intro e uri loc htag hloc
    have hlb : ('{' : Char) ∉ "fasb.org/us-gaap".data := by decide
    have hrb : ('}' : Char) ∉ "fasb.org/us-gaap".data := by decide
    have hslash : ('/' : Char) ∈ "fasb.org/us-gaap".data := by decide
    rw [usGaapMatch, htag,
      show ('{' :: uri.data ++ '}' :: loc.data) =
        ([] ++ '{' :: (uri.data ++ '}' :: loc.data)) from by simp,
      hasSubstr_append_cons hlb [] (uri.data ++ '}' :: loc.data),
      hasSubstr_append_cons hrb uri.data loc.data]
    have hnl : hasSubstr "fasb.org/us-gaap".data loc.data = false := by
      by_contra hcon
      simp only [Bool.not_eq_false] at hcon
      exact hloc (mem_of_hasSubstr hcon hslash)
    have hne : hasSubstr "fasb.org/us-gaap".data [] = false := by decide
    rw [hnl, hne]
    simp

/-- C4 witness: the sample document yields exactly the conversion of its one
us-gaap element with the namespace stripped from the tag, and a document with
no matching elements yields the empty sequence. -/
theorem extract_tags_spec_witness :
    (∃ e ∈ sampleRoot.iter, usGaapMatch e = true ∧
        dataObjectOf sampleRoot sampleFactElem = dataObjectOf sampleRoot e ∧
        (dataObjectOf sampleRoot sampleFactElem).tag =
          String.mk (partAfterChar '}' e.tag.data)) ∧
    extract_tags sampleContextElem = [] ∧
    usGaapMatch sampleFactElem =
      hasSubstr "fasb.org/us-gaap".data "http://fasb.org/us-gaap/2023".data :=
  ⟨(extract_tags_spec sampleRoot).2.1 (dataObjectOf sampleRoot sampleFactElem)
      (by rw [extract_tags, extractTagsLoop_eq sampleRoot sampleRoot.iter]
          simp [sampleRoot, sampleFactElem, sampleContextElem, iterAll,
            XMLElem.iter, XMLElem.children, List.filter]
          decide),
   (extract_tags_spec sampleContextElem).2.2.1 (by decide),
   (extract_tags_spec sampleFactElem).2.2.2 sampleFactElem
      "http://fasb.org/us-gaap/2023" "Revenues" (by decide) (by decide)⟩

/-- The loop `getXmlLoop` never adds or removes filings. -/
lemma getXmlLoop_length (facts : Filing → List XMLDataObject) (lim : Nat) :
    ∀ (l : List Filing) (count : Nat),
      (getXmlLoop facts lim count l).length = l.length
  | [], _ => rfl
  | f :: rest, count => by
    unfold getXmlLoop
    by_cases h : qualifies f ∧ count < lim
    · rw [if_pos h]
      simp [getXmlLoop_length facts lim rest (count + 1)]
    · rw [if_neg h]
      simp [getXmlLoop_length facts lim rest count]

/-- Loop invariant of `get_xml`: position `i` is augmented exactly when its
filing qualifies and the running count (`count` plus the qualifying filings
before `i`) is still below the limit; otherwise the record is unchanged. -/
lemma getXmlLoop_getElem (facts : Filing → List XMLDataObject) (lim : Nat) :
    ∀ (l : List Filing) (count i : Nat) (f : Filing), l[i]? = some f →
      (getXmlLoop facts lim count l)[i]? = some (
        if qualifies f ∧ count + ((l.take i).filter qualifies).length < lim
        then { f with xml_data := some (facts f) } else f)
  | [], _, i, f, h => by simp at h
  | g :: rest, count, 0, f, h => by
    simp only [List.getElem?_cons_zero, Option.some_inj] at h
    subst h
    unfold getXmlLoop
    by_cases hq : qualifies g ∧ count < lim
    · rw [if_pos hq]
      simp only [List.getElem?_cons_zero, List.take_zero, List.filter_nil,
        List.length_nil, Nat.add_zero]
      rw [if_pos hq]
    · rw [if_neg hq]
      simp only [List.getElem?_cons_zero, List.take_zero, List.filter_nil,
        List.length_nil, Nat.add_zero]
      rw [if_neg hq]
  | g :: rest, count, i + 1, f, h => by
    simp only [List.getElem?_cons_succ] at h
    unfold getXmlLoop
    by_cases hq : qualifies g ∧ count < lim
    · rw [if_pos hq]
      simp only [List.getElem?_cons_succ]
      rw [getXmlLoop_getElem facts lim rest (count + 1) i f h,
        List.take_succ_cons, List.filter_cons_of_pos hq.1,
        List.length_cons]
      have harith : count + 1 + ((rest.take i).filter qualifies).length =
          count + (((rest.take i).filter qualifies).length + 1) := by omega
      rw [harith]
    · rw [if_neg hq]
      simp only [List.getElem?_cons_succ]
      rw [getXmlLoop_getElem facts lim rest count i f h, List.take_succ_cons]
      by_cases hg : qualifies g
      · have hcl : ¬ count < lim := fun hc => hq ⟨hg, hc⟩
        rw [List.filter_cons_of_pos hg, List.length_cons]
        have c1 : ¬ (qualifies f ∧
            count + ((rest.take i).filter qualifies).length < lim) := by
          rintro ⟨-, h2⟩
          omega
        have c2 : ¬ (qualifies f ∧
            count + (((rest.take i).filter qualifies).length + 1) < lim) := by
          rintro ⟨-, h2⟩
          omega
        rw [if_neg c1, if_neg c2]
      · simp only [Bool.not_eq_true] at hg
        rw [List.filter_cons_of_neg (by simp [hg])]

/-- C5: statement augmentation leaves the filing count unchanged, and
attaches extracted facts to exactly those filings that qualify
(`form.upper()` is `10-Q` or `10-K`) and whose rank among the qualifying
filings, in original order, is below the effective limit (`limit`, with a
falsy `0` meaning no cap); every other filing — non-qualifying, or
qualifying but beyond the limit — is returned unchanged, so a fresh catalog
record keeps `xml_data = none`. -/
theorem get_xml_spec (facts : Filing → List XMLDataObject)
    (filings : List Filing) (limit : Nat) (i : Nat) (f : Filing)
    (hf : filings[i]? = some f) :
    (get_xml facts filings limit).length = filings.length ∧
    (get_xml facts filings limit)[i]? = some (
      if qualifies f ∧ ((filings.take i).filter qualifies).length <
          (if limit = 0 then filings.length + 1 else limit)
      then { f with xml_data := some (facts f) } else f) := by
  constructor
  · exact getXmlLoop_length facts _ filings 0
  · simpa using getXmlLoop_getElem facts
      (if limit = 0 then filings.length + 1 else limit) filings 0 i f hf

/-- C5 witness: with forms `[10-K, 8-K, 10-q, 10-K]` and limit 2, the
case-insensitively qualifying filings at positions 0 and 2 are augmented,
the non-qualifying 8-K is untouched, and the qualifying 10-K at position 3
is beyond the limit and keeps `xml_data = none`. -/
theorem get_xml_spec_witness :
    (get_xml (fun _ => []) [sampleFiling "10-K", sampleFiling "8-K",
      sampleFiling "10-q", sampleFiling "10-K"] 2).length = 4 ∧
    (get_xml (fun _ => []) [sampleFiling "10-K", sampleFiling "8-K",
      sampleFiling "10-q", sampleFiling "10-K"] 2)[1]? =
        some (sampleFiling "8-K") ∧
    (get_xml (fun _ => []) [sampleFiling "10-K", sampleFiling "8-K",
      sampleFiling "10-q", sampleFiling "10-K"] 2)[2]? =
        some { sampleFiling "10-q" with xml_data := some [] } ∧
    (get_xml (fun _ => []) [sampleFiling "10-K", sampleFiling "8-K",
      sampleFiling "10-q", sampleFiling "10-K"] 2)[3]? =
        some (sampleFiling "10-K") :=
  ⟨(get_xml_spec (fun _ => []) [sampleFiling "10-K", sampleFiling "8-K",
      sampleFiling "10-q", sampleFiling "10-K"] 2 0 (sampleFiling "10-K")
      rfl).1,
   by rw [(get_xml_spec (fun _ => []) [sampleFiling "10-K", sampleFiling "8-K",
        sampleFiling "10-q", sampleFiling "10-K"] 2 1 (sampleFiling "8-K")
        rfl).2]
      decide,
   by rw [(get_xml_spec (fun _ => []) [sampleFiling "10-K", sampleFiling "8-K",
        sampleFiling "10-q", sampleFiling "10-K"] 2 2 (sampleFiling "10-q")
        rfl).2]
      decide,
   by rw [(get_xml_spec (fun _ => []) [sampleFiling "10-K", sampleFiling "8-K",
        sampleFiling "10-q", sampleFiling "10-K"] 2 3 (sampleFiling "10-K")
        rfl).2]
      decide⟩

/-- The deduplication loop factors as keep-first-occurrences followed by
conversion. -/
lemma dedupUnits_eq (cik : Int) (tag : String) :
    ∀ (seen : List (String × String)) (l : List RawUnit),
      dedupUnits cik tag seen l = convertUnits cik tag (keepFirsts seen l)
  | seen, [] => rfl
  | seen, u :: rest => by
    unfold dedupUnits keepFirsts
    by_cases hs : unitKey u ∈ seen
    · rw [if_pos hs, if_pos hs, dedupUnits_eq cik tag seen rest]
    · rw [if_neg hs, if_neg hs]
      cases hd : strptimeYmd u.endStr with
      | none => simp [convertUnits, hd]
      | some d =>
        simp only [convertUnits, hd,
          dedupUnits_eq cik tag (unitKey u :: seen) rest]
        cases convertUnits cik tag (keepFirsts (unitKey u :: seen) rest) <;>
          simp [Option.bind]

/-- Everything kept comes from the input. -/
lemma keepFirsts_subset (seen : List (String × String)) :
    ∀ (l : List RawUnit) (u : RawUnit), u ∈ keepFirsts seen l → u ∈ l := by
  intro l
  induction l generalizing seen with
  | nil => intro u h; simp [keepFirsts] at h
  | cons v rest ih =>
    intro u h
    unfold keepFirsts at h
    by_cases hs : unitKey v ∈ seen
    · rw [if_pos hs] at h
      exact List.mem_cons_of_mem v (ih seen u h)
    · rw [if_neg hs] at h
      rcases List.mem_cons.mp h with rfl | h'
      · exact List.mem_cons_self u rest
      · exact List.mem_cons_of_mem v (ih (unitKey v :: seen) u h')

/-- Everything kept is the first occurrence of its key: its key is outside
`seen` and no earlier input entry shares it. -/
lemma keepFirsts_first (seen : List (String × String)) :
    ∀ (l : List RawUnit) (u : RawUnit), u ∈ keepFirsts seen l →
      unitKey u ∉ seen ∧
      ∃ l1 l2, l = l1 ++ u :: l2 ∧ unitKey u ∉ l1.map unitKey := by
  intro l
  induction l generalizing seen with
  | nil => intro u h; simp [keepFirsts] at h
  | cons v rest ih =>
    intro u h
    unfold keepFirsts at h
    by_cases hs : unitKey v ∈ seen
    · rw [if_pos hs] at h
      obtain ⟨hns, l1, l2, rfl, hnk⟩ := ih seen u h
      refine ⟨hns, v :: l1, l2, rfl, ?_⟩
      simp only [List.map_cons, List.mem_cons, not_or]
      exact ⟨fun he => hns (he ▸ hs), hnk⟩
    · rw [if_neg hs] at h
      rcases List.mem_cons.mp h with rfl | h'
      · exact ⟨hs, [], rest, rfl, by simp⟩
      · obtain ⟨hns, l1, l2, rfl, hnk⟩ := ih (unitKey v :: seen) u h'
        simp only [List.mem_cons, not_or] at hns
        refine ⟨hns.2, v :: l1, l2, rfl, ?_⟩
        simp only [List.map_cons, List.mem_cons, not_or]
        exact ⟨hns.1, hnk⟩

/-- A key appears among the kept units exactly when it appears in the input
and was not already seen. -/
lemma keepFirsts_keys_mem (seen : List (String × String)) :
    ∀ (l : List RawUnit) (k : String × String),
      k ∈ (keepFirsts seen l).map unitKey ↔
        k ∉ seen ∧ k ∈ l.map unitKey := by
  intro l
  induction l generalizing seen with
  | nil => intro k; simp [keepFirsts]
  | cons v rest ih =>
    intro k
    unfold keepFirsts
    by_cases hs : unitKey v ∈ seen
    · rw [if_pos hs, ih seen k]
      simp only [List.map_cons, List.mem_cons]
      constructor
      · rintro ⟨hns, hm⟩
        exact ⟨hns, Or.inr hm⟩
      · rintro ⟨hns, rfl | hm⟩
        · exact absurd hs hns
        · exact ⟨hns, hm⟩
    · rw [if_neg hs]
      simp only [List.map_cons, List.mem_cons, ih (unitKey v :: seen) k,
        List.mem_cons, not_or]
      constructor
      · rintro (rfl | ⟨⟨hne, hns⟩, hm⟩)
        · exact ⟨hs, Or.inl rfl⟩
        · exact ⟨hns, Or.inr hm⟩
      · rintro ⟨hns, rfl | hm⟩
        · exact Or.inl rfl
        · by_cases he : k = unitKey v
          · exact Or.inl he
          · exact Or.inr ⟨⟨he, hns⟩, hm⟩

/-- Kept keys are pairwise distinct. -/
lemma keepFirsts_keys_nodup (seen : List (String × String)) :
    ∀ l : List RawUnit, ((keepFirsts seen l).map unitKey).Nodup := by
  intro l
  induction l generalizing seen with
  | nil => simp [keepFirsts]
  | cons v rest ih =>
    unfold keepFirsts
    by_cases hs : unitKey v ∈ seen
    · rw [if_pos hs]
      exact ih seen
    · rw [if_neg hs]
      simp only [List.map_cons, List.nodup_cons]
      refine ⟨fun hmem => ?_, ih (unitKey v :: seen)⟩
      exact ((keepFirsts_keys_mem (unitKey v :: seen) rest
        (unitKey v)).mp hmem).1 (List.mem_cons_self _ _)

/-- A successful conversion has one output per kept unit. -/
lemma convertUnits_length (cik : Int) (tag : String) :
    ∀ (l : List RawUnit) (out : List StatementObject),
      convertUnits cik tag l = some out → out.length = l.length
  | [], out, h => by
    simp only [convertUnits, Option.some_inj] at h
    subst h; rfl
  | u :: rest, out, h => by
    unfold convertUnits at h
    cases hd : strptimeYmd u.endStr with
    | none => rw [hd] at h; exact absurd h (by simp)
    | some d =>
      rw [hd] at h
      cases hc : convertUnits cik tag rest with
      | none => rw [hc] at h; exact absurd h (by simp)
      | some tl =>
        rw [hc] at h
        simp only [Option.map_some', Option.some_inj] at h
        subst h
        simp [convertUnits_length cik tag rest tl hc]

/-- Positionally, each output of a successful conversion is the
`StatementObject` built from the corresponding kept unit. -/
lemma convertUnits_zip (cik : Int) (tag : String) :
    ∀ (l : List RawUnit) (out : List StatementObject),
      convertUnits cik tag l = some out →
      ∀ p ∈ out.zip l, ∃ d, strptimeYmd p.2.endStr = some d ∧
        p.1 = mkStatementObject cik tag p.2 d
  | [], out, h, p, hp => by
    simp only [convertUnits, Option.some_inj] at h
    subst h; simp at hp
  | u :: rest, out, h, p, hp => by
    unfold convertUnits at h
    cases hd : strptimeYmd u.endStr with
    | none => rw [hd] at h; exact absurd h (by simp)
    | some d =>
      rw [hd] at h
      cases hc : convertUnits cik tag rest with
      | none => rw [hc] at h; exact absurd h (by simp)
      | some tl =>
        rw [hc] at h
        simp only [Option.map_some', Option.some_inj] at h
        subst h
        rcases List.mem_cons.mp (by simpa [List.zip_cons_cons] using hp)
          with rfl | hp'
        · exact ⟨d, hd, rfl⟩
        · exact convertUnits_zip cik tag rest tl hc p hp'

/-- Each output of a successful conversion comes from some input unit. -/
lemma convertUnits_mem (cik : Int) (tag : String) :
    ∀ (l : List RawUnit) (out : List StatementObject),
      convertUnits cik tag l = some out →
      ∀ o ∈ out, ∃ u ∈ l, ∃ d, strptimeYmd u.endStr = some d ∧
        o = mkStatementObject cik tag u d
  | [], out, h, o, ho => by
    simp only [convertUnits, Option.some_inj] at h
    subst h; simp at ho
  | u :: rest, out, h, o, ho => by
    unfold convertUnits at h
    cases hd : strptimeYmd u.endStr with
    | none => rw [hd] at h; exact absurd h (by simp)
    | some d =>
      rw [hd] at h
      cases hc : convertUnits cik tag rest with
      | none => rw [hc] at h; exact absurd h (by simp)
      | some tl =>
        rw [hc] at h
        simp only [Option.map_some', Option.some_inj] at h
        subst h
        rcases List.mem_cons.mp ho with rfl | ho'
        · exact ⟨u, List.mem_cons_self u rest, d, hd, rfl⟩
        · obtain ⟨u', hu', d', hd', he'⟩ :=
            convertUnits_mem cik tag rest tl hc o ho'
          exact ⟨u', List.mem_cons_of_mem u hu', d', hd', he'⟩

/-- Conversion succeeds when every unit's `end` date parses. -/
lemma convertUnits_total (cik : Int) (tag : String) :
    ∀ l : List RawUnit, (∀ u ∈ l, (strptimeYmd u.endStr).isSome) →
      ∃ out, convertUnits cik tag l = some out
  | [], _ => ⟨[], rfl⟩
  | u :: rest, h => by
    obtain ⟨d, hd⟩ := Option.isSome_iff_exists.mp
      (h u (List.mem_cons_self u rest))
    obtain ⟨tl, htl⟩ := convertUnits_total cik tag rest
      (fun v hv => h v (List.mem_cons_of_mem u hv))
    exact ⟨mkStatementObject cik tag u d :: tl, by
      simp [convertUnits, hd, htl]⟩

/-- C1: a successful run of the deduplication loop on a raw time series
returns exactly one `StatementObservation` per distinct `(fp, end)` pair —
the kept units have pairwise-distinct keys covering exactly the input's
keys, each kept unit is the first occurrence of its key in input order, and
positionally each output is built from its kept unit (so when two entries
share `fp` and `end` but differ in `val`, only the first entry's value is
retained); the output length equals (hence is at most) the number of
distinct keys. -/
theorem get_statement_data_dedup (cik : Int) (tag : String)
    (units : List RawUnit) (out : List StatementObject)
    (h : dedupUnits cik tag [] units = some out) :
    ∃ kept : List RawUnit,
      (kept.map unitKey).Nodup ∧
      (∀ k, k ∈ kept.map unitKey ↔ k ∈ units.map unitKey) ∧
      (∀ u ∈ kept, ∃ l1 l2, units = l1 ++ u :: l2 ∧
          unitKey u ∉ l1.map unitKey) ∧
      out.length = kept.length ∧
      (∀ p ∈ out.zip kept, ∃ d, strptimeYmd p.2.endStr = some d ∧
          p.1 = mkStatementObject cik tag p.2 d) ∧
      out.length = (units.map unitKey).dedup.length := by
  rw [dedupUnits_eq cik tag [] units] at h
  refine ⟨keepFirsts [] units, keepFirsts_keys_nodup [] units, ?_, ?_, ?_, ?_, ?_⟩
  · intro k
    rw [keepFirsts_keys_mem [] units k]
    simp
  · intro u hu
    exact (keepFirsts_first [] units u hu).2
  · exact convertUnits_length cik tag _ out h
  · exact convertUnits_zip cik tag _ out h
  · have h1 : out.length = (keepFirsts [] units).length :=
      convertUnits_length cik tag _ out h
    have h2 : ((keepFirsts [] units).map unitKey).toFinset =
        (units.map unitKey).toFinset := by
      ext k
      simp only [List.mem_toFinset]
      rw [keepFirsts_keys_mem [] units k]
      simp
    calc out.length = ((keepFirsts [] units).map unitKey).length := by
          rw [h1, List.length_map]
      _ = ((keepFirsts [] units).map unitKey).toFinset.card :=
          (List.toFinset_card_of_nodup (keepFirsts_keys_nodup [] units)).symm
      _ = (units.map unitKey).toFinset.card := by rw [h2]
      _ = (units.map unitKey).dedup.length := List.card_toFinset _

/-- C1 witness: the loop on `dupUnits` succeeds with `dupUnitsExpected`,
retaining only the first of the two entries sharing `(FY, 2023-09-30)`. -/
theorem get_statement_data_dedup_witness :
    ∃ kept : List RawUnit,
      (kept.map unitKey).Nodup ∧
      (∀ k, k ∈ kept.map unitKey ↔ k ∈ dupUnits.map unitKey) ∧
      (∀ u ∈ kept, ∃ l1 l2, dupUnits = l1 ++ u :: l2 ∧
          unitKey u ∉ l1.map unitKey) ∧
      dupUnitsExpected.length = kept.length ∧
      (∀ p ∈ dupUnitsExpected.zip kept,
        ∃ d, strptimeYmd p.2.endStr = some d ∧
          p.1 = mkStatementObject 320193 "Revenues" p.2 d) ∧
      dupUnitsExpected.length = (dupUnits.map unitKey).dedup.length :=
  get_statement_data_dedup 320193 "Revenues" dupUnits dupUnitsExpected
    (by decide)

/-- C7: the statement deduplicator consults only the first declared unit
group: the result is unchanged when the later groups are dropped, and every
returned observation is built from a unit of the first group. -/
theorem get_statement_data_first_group (resp : ConceptResponse)
    (g : String × List RawUnit) (rest : List (String × List RawUnit))
    (hu : resp.units = g :: rest) (_hrest : rest ≠ []) :
    get_statement_data resp = get_statement_data { resp with units := [g] } ∧
    ∀ out, get_statement_data resp = .ok (some out) →
      ∀ o ∈ out, ∃ u ∈ g.2, ∃ d, strptimeYmd u.endStr = some d ∧
        o = mkStatementObject resp.cik resp.tag u d := by
  constructor
  · simp [get_statement_data, hu]
  · intro out hout o ho
    unfold get_statement_data at hout
    cases hok : resp.ok with
    | false => rw [hok] at hout; simp at hout
    | true =>
      rw [hok] at hout
      simp only [if_true, hu, List.map_cons, List.head?_cons] at hout
      cases hd : dedupUnits resp.cik resp.tag [] g.2 with
      | none => rw [hd] at hout; simp at hout
      | some objs =>
        rw [hd] at hout
        simp only [Except.ok.injEq, Option.some_inj] at hout
        subst hout
        rw [dedupUnits_eq resp.cik resp.tag [] g.2] at hd
        obtain ⟨u, hukept, d, hdparse, he⟩ :=
          convertUnits_mem resp.cik resp.tag _ objs hd o ho
        exact ⟨u, keepFirsts_subset [] g.2 u hukept, d, hdparse, he⟩

/-- C7 witness: a response with two unit groups evaluates identically to the
response holding only its first group. -/
theorem get_statement_data_first_group_witness :
    get_statement_data
      { ok := true, cik := 320193, tag := "Revenues",
        units := [("USD", dupUnits), ("shares", [])] } =
    get_statement_data
      { ok := true, cik := 320193, tag := "Revenues",
        units := [("USD", dupUnits)] } :=
  (get_statement_data_first_group
    { ok := true, cik := 320193, tag := "Revenues",
      units := [("USD", dupUnits), ("shares", [])] }
    ("USD", dupUnits) [("shares", [])] rfl (by simp)).1

/-- C8 counterexample: a successful (`ok`) response whose units mapping is
empty makes `get_statement_data` raise `IndexError` instead of returning a
list of observations. -/
theorem get_statement_data_success_counterexample :
    get_statement_data
      { ok := true, cik := 320193, tag := "Revenues", units := [] } =
    .error .indexError := rfl

/-- C8 (amended): a non-success response yields the explicit empty signal
`None` without raising; a successful response whose units mapping is
non-empty and whose first group's `end` dates all parse yields a list of
`StatementObservation`. -/
theorem get_statement_data_fetch_failure (resp : ConceptResponse) :
    (resp.ok = false → get_statement_data resp = .ok none) ∧
    (resp.ok = true → ∀ g rest, resp.units = g :: rest →
      (∀ u ∈ g.2, (strptimeYmd u.endStr).isSome) →
      ∃ objs, get_statement_data resp = .ok (some objs)) := by
  constructor
  · intro hok
    simp [get_statement_data, hok]
  · intro hok g rest hu hparse
    obtain ⟨out, hout⟩ := convertUnits_total resp.cik resp.tag
      (keepFirsts [] g.2)
      (fun u hu' => hparse u (keepFirsts_subset [] g.2 u hu'))
    refine ⟨out, ?_⟩
    simp only [get_statement_data, hok, if_true, hu, List.map_cons,
      List.head?_cons]
    rw [dedupUnits_eq resp.cik resp.tag [] g.2, hout]

/-- C8 witness: both amended branches at concrete responses — a failed fetch
returns `None`; a successful well-formed response returns observations. -/
theorem get_statement_data_fetch_failure_witness :
    get_statement_data
      { ok := false, cik := 320193, tag := "Revenues",
        units := [("USD", dupUnits)] } = .ok none ∧
    ∃ objs, get_statement_data
      { ok := true, cik := 320193, tag := "Revenues",
        units := [("USD", dupUnits)] } = .ok (some objs) :=
  ⟨(get_statement_data_fetch_failure
      { ok := false, cik := 320193, tag := "Revenues",
        units := [("USD", dupUnits)] }).1 rfl,
   (get_statement_data_fetch_failure
      { ok := true, cik := 320193, tag := "Revenues",
        units := [("USD", dupUnits)] }).2 rfl ("USD", dupUnits) [] rfl
      (by decide)⟩

/-- C10: with a successful response, the first-unit-group access is in
bounds exactly when the units mapping is non-empty — no `IndexError` can
arise then — and there is a successful empty-units response on which the
operation fails with `IndexError` rather than returning an empty result. -/
theorem get_statement_data_units_precondition :
    (∀ resp : ConceptResponse, resp.ok = true → resp.units ≠ [] →
        get_statement_data resp ≠ .error .indexError) ∧
    (∃ resp : ConceptResponse, resp.ok = true ∧ resp.units = [] ∧
        get_statement_data resp = .error .indexError) := by
  constructor
  · intro resp hok hne
    unfold get_statement_data
    rw [hok]
    cases hu : resp.units with
    | nil => exact absurd hu hne
    | cons g rest =>
      simp only [if_true, List.map_cons, List.head?_cons]
      cases hd : dedupUnits resp.cik resp.tag [] g.2 with
      | none => simp
      | some objs => simp
  · exact ⟨{ ok := true, cik := 7, tag := "T", units := [] }, rfl, rfl, rfl⟩

/-- C10 witness: the in-bounds half applied to a successful response with a
(single, empty-series) unit group. -/
theorem get_statement_data_units_precondition_witness :
    get_statement_data
      { ok := true, cik := 7, tag := "T", units := [("USD", [])] } ≠
      .error .indexError :=
  get_statement_data_units_precondition.1
    { ok := true, cik := 7, tag := "T", units := [("USD", [])] } rfl
    (by simp)

end Edgar
